import Mathlib

/-!
Shallow embedding of the crawl scheduling queue of the minet repository:
`src/minet/crawl/new_queue.py` (class `CrawlerQueue`) and
`src/minet/crawl/types.py` (`CrawlTarget`, `CrawlJob`).

Conventions of the embedding:
* SQL `NULL`-able columns become `Option`; SQL `TEXT` becomes `String`,
  SQL `INTEGER` becomes `Int`.
* Wall-clock timestamps (Python floats holding seconds since the epoch)
  are modelled as exact rationals `Rat`; the claims about them concern
  only comparison and subtraction, not rounding.
* The `data` payload is serialized with `pickle.dumps` / `pickle.loads`,
  an external faithful round-tripping codec; the store column is
  modelled as the optional payload itself (`Option δ`), exactly the
  `None`-propagation performed at lines 243 and 324 of `new_queue.py`.
* Each table of the SQLite store becomes a list of rows; primary-key
  lookups become association-list lookups.
-/

namespace Minet

/-- A dynamically typed Python value, just rich enough to express the
`isinstance` checks performed by `CrawlTarget.__init__`:
`None`, an `int`, a `str`, or any other object (tagged by a number). -/
inductive PyVal where
  | pynone
  | int (n : Int)
  | str (s : String)
  | obj (tag : Nat)
deriving DecidableEq, Repr

/-- `isinstance(v, str)`. -/
def PyVal.isStr : PyVal → Bool
  | .str _ => true
  | _ => false

/-- `isinstance(v, int)`. -/
def PyVal.isInt : PyVal → Bool
  | .int _ => true
  | _ => false

/-- The state of a constructed `CrawlTarget` (`src/minet/crawl/types.py`,
slots `url`, `depth`, `spider`, `data`). -/
structure CrawlTarget where
  url : PyVal
  depth : PyVal
  spider : PyVal
  data : PyVal
deriving DecidableEq, Repr

/-- `CrawlTarget.__init__` (`src/minet/crawl/types.py` lines 19-40).
Note the third check is transcribed exactly as written in the source:
`if spider is not None and not isinstance(depth, int)` — it tests the
type of `depth`, not of `spider`. -/
def crawlTargetInit (url depth spider data : PyVal) : Except String CrawlTarget :=
  if !url.isStr then
    .error ("url should be a string")
  else if depth != PyVal.pynone && !depth.isInt then
    .error ("depth should be an int")
  else if spider != PyVal.pynone && !depth.isInt then
    .error ("spider should be a string")
  else
    .ok ⟨url, depth, spider, data⟩

/-- Modelled from the spec: the job value consumed by `new_queue.py`.
The `CrawlJob` revision present in `src/minet/crawl/types.py` has no
`id`, `group`, `priority` or `parent` attribute, while
`CrawlerQueue.put_many` reads `job.id`, `job.group`, `job.priority`,
`job.parent` and `CrawlerQueue.get_nowait` passes the corresponding
keyword arguments back to the constructor; the revision the queue is
written against is not under `src/`. Per spec §3 the job carries
`id`, `url`, `group`, `depth`, `spider`, `priority`, `data`, `parent`.
URL normalization is done once by the external `ural` library
(out of scope per spec §1) before the value reaches the queue, so the
fields are modelled as stored. `δ` is the opaque `data` payload type. -/
structure CrawlJob (δ : Type) where
  id : String
  url : String
  group : Option String
  depth : Int
  spider : Option String
  priority : Int
  data : Option δ
  parent : Option String
deriving DecidableEq, Repr

/-- Modelled from the spec (§4.3 "Two jobs are equal by `id`") and the
source note at `new_queue.py` line 332 ("jobs are hashable by id"):
job equality compares the `id` fields. -/
def jobEq {δ : Type} (a b : CrawlJob δ) : Bool :=
  a.id == b.id

/-- Modelled from the spec (§4.3 "hashing uses `id`"): a job's hash is
the hash of its `id` field. -/
def jobHash {δ : Type} (j : CrawlJob δ) : UInt64 :=
  j.id.hash

/-- One row of the `queue` table (`SQL_CREATE`, `new_queue.py`
lines 25-36). -/
structure QueueRow (δ : Type) where
  index : Int
  status : Int
  id : String
  url : String
  group : Option String
  depth : Int
  spider : Option String
  priority : Int
  data : Option δ
  parent : Option String
deriving DecidableEq, Repr

/-- The row inserted for a job by `put_many` (`new_queue.py`
lines 234-246 together with `SQL_INSERT_JOB`): the given `index`,
`status` left to its schema default 0, and the job's fields. -/
def jobToRow {δ : Type} (idx : Int) (j : CrawlJob δ) : QueueRow δ :=
  { index := idx
    status := 0
    id := j.id
    url := j.url
    group := j.group
    depth := j.depth
    spider := j.spider
    priority := j.priority
    data := j.data
    parent := j.parent }

/-- The job reconstructed from a selected row by `get_nowait`
(`new_queue.py` lines 317-326): column 2 is the url, 1 the id, 3 the
group, 4 the depth, 5 the spider, 6 the priority, 7 the payload,
8 the parent. -/
def rowToJob {δ : Type} (r : QueueRow δ) : CrawlJob δ :=
  { id := r.id
    url := r.url
    group := r.group
    depth := r.depth
    spider := r.spider
    priority := r.priority
    data := r.data
    parent := r.parent }

/-- The whole state of one `CrawlerQueue`: the three store tables
(`queue`, `throttle`, `parallelism`), the in-memory in-flight map
`tasks`, the `counter` holding the next `index` value, and
`current_task_done_count`. -/
structure QState (δ : Type) where
  queue : List (QueueRow δ)
  throttle : List (String × Rat)
  parallelism : List (String × Int)
  tasks : List (CrawlJob δ × Int)
  counter : Int
  currentTaskDoneCount : Int
deriving DecidableEq, Repr

/-- The construction parameters relevant to scheduling:
`lifo`, `group_parallelism`, `throttle`, `cleanup_interval`. -/
structure Config where
  isLifo : Bool
  groupParallelism : Int
  throttle : Rat
  cleanupInterval : Int
deriving DecidableEq, Repr

/-- The state of a freshly created, non-resuming queue: empty tables,
empty in-flight map, `counter = 0`, `current_task_done_count = 0`. -/
def freshState (δ : Type) : QState δ :=
  { queue := []
    throttle := []
    parallelism := []
    tasks := []
    counter := 0
    currentTaskDoneCount := 0 }

/-- Primary-key lookup in a one-column-keyed table. -/
def alistGet {α : Type} (k : String) : List (String × α) → Option α
  | [] => none
  | (k', v) :: rest => if k' = k then some v else alistGet k rest

/-- The `LEFT JOIN ... ON "queue"."group" = <table>."group"` lookup of
`SQL_GET_JOB`: a `NULL` queue group matches no row (SQL `NULL = x` is
not true), and an absent key yields `NULL` columns. -/
def joinLookup {α : Type} (tbl : List (String × α)) (g : Option String) : Option α :=
  match g with
  | none => none
  | some s => alistGet s tbl

/-- The `WHERE` clause of `SQL_GET_JOB` (`new_queue.py` lines 80-84)
evaluated at time `nowT` with group-parallelism cap `gp`: `status = 0`,
and the joined throttle timestamp is `NULL` or `≤ nowT`, and the joined
parallelism count is `NULL` or `< gp`. -/
def sqlGetJobWhere {δ : Type} (st : QState δ) (nowT : Rat) (gp : Int) (r : QueueRow δ) : Bool :=
  (r.status == 0)
  && (match joinLookup st.throttle r.group with
      | none => true
      | some ts => decide (ts ≤ nowT))
  && (match joinLookup st.parallelism r.group with
      | none => true
      | some c => decide (c < gp))

/-- The strict comparison realizing `ORDER BY "priority" ASC, "index"
ASC|DESC` (`new_queue.py` line 85, direction chosen at line 284):
`a` sorts strictly before `b`. -/
def rowBefore {δ : Type} (lifo : Bool) (a b : QueueRow δ) : Bool :=
  decide (a.priority < b.priority)
  || (decide (a.priority = b.priority)
      && (if lifo then decide (b.index < a.index) else decide (a.index < b.index)))

/-- `ORDER BY ... LIMIT 1`: the first row of the list under the strict
comparison `lt` (ties keep the earlier row), `none` on the empty list. -/
def firstByOrder {α : Type} (lt : α → α → Bool) : List α → Option α
  | [] => none
  | x :: xs => some (xs.foldl (fun acc y => if lt y acc then y else acc) x)

/-- The full `SQL_GET_JOB` query (`new_queue.py` lines 66-87) as run by
`get_nowait` at lines 283-287: filter the `queue` table by the `WHERE`
clause, order by `(priority, index)` with the configured direction, take
the first row. -/
def sqlGetJob {δ : Type} (cfg : Config) (nowT : Rat) (st : QState δ) : Option (QueueRow δ) :=
  firstByOrder (rowBefore cfg.isLifo)
    (st.queue.filter (sqlGetJobWhere st nowT cfg.groupParallelism))

/-- `CrawlerQueue.__count` (`new_queue.py` lines 218-220):
`SELECT count(*) FROM "queue" WHERE "status" = 0`. -/
def countPending {δ : Type} (st : QState δ) : Nat :=
  (st.queue.filter (fun r => r.status == 0)).length

/-- `SELECT min("timestamp") FROM "throttle"` (`new_queue.py` line 299):
the SQL aggregate is `NULL` on an empty table. -/
def minThrottle {δ : Type} (st : QState δ) : Option Rat :=
  match st.throttle.map Prod.snd with
  | [] => none
  | t :: ts => some (ts.foldl min t)

/-- `TIMER_EPSILON`, imported by `new_queue.py` from the external
`quenouille` package. Its concrete value plays no role in any claim;
only the fact that it is added to the computed wait bound matters. -/
def TIMER_EPSILON : Rat := 1 / 100

/-- `INSERT OR REPLACE INTO "parallelism" ... COALESCE(count + 1, 1)`
(`SQL_INCREMENT_PARALLELISM`, `new_queue.py` lines 89-94): set the
group's count to one more than its current count, or to 1 if absent. -/
def incrementParallelism (g : String) (tbl : List (String × Int)) : List (String × Int) :=
  match alistGet g tbl with
  | none => (g, 1) :: tbl
  | some c => tbl.map (fun p => if p.1 = g then (p.1, c + 1) else p)

/-- `self.tasks.get(job)`: dictionary lookup where keys compare by
`jobEq` (jobs are hashable and equal by `id`). -/
def tasksGet {δ : Type} : List (CrawlJob δ × Int) → CrawlJob δ → Option Int
  | [], _ => none
  | (k, v) :: rest, j => if jobEq k j then some v else tasksGet rest j

/-- `self.tasks[job] = index`: dictionary assignment; an existing equal
key keeps its key object and gets the new value, otherwise a new entry
is added. -/
def tasksSet {δ : Type} (j : CrawlJob δ) (idx : Int) :
    List (CrawlJob δ × Int) → List (CrawlJob δ × Int)
  | [] => [(j, idx)]
  | (k, v) :: rest =>
      if jobEq k j then (k, idx) :: rest else (k, v) :: tasksSet j idx rest

/-- `UPDATE "queue" SET "status" = 1 WHERE "index" = ?`
(`new_queue.py` lines 312-315). -/
def setStatusInFlight {δ : Type} (idx : Int) (rows : List (QueueRow δ)) : List (QueueRow δ) :=
  rows.map (fun r => if r.index = idx then { r with status := 1 } else r)

/-- The possible outcomes of one pass of the `while True` loop of
`get_nowait` (`new_queue.py` lines 271-335):
* `got`: a row was selected; the updated state and the reconstructed job.
* `drained`: no row and no pending row — `raise Empty`.
* `waitRetry`: no eligible row but pending rows exist — release the
  transaction and wait on the condition variable for the optional bound,
  then loop.
* `typeError`: the Python `TypeError` raised at line 304 when
  `throttle_row[0]` is `None` and the code computes `None - now()`. -/
inductive GetOutcome (δ : Type) where
  | got (job : CrawlJob δ) (st : QState δ)
  | drained
  | waitRetry (bound : Option Rat)
  | typeError
deriving DecidableEq, Repr

/-- One pass of the body of `get_nowait` (`new_queue.py` lines 282-335)
at wall-clock time `nowT`:
run `SQL_GET_JOB`; if a row comes back, mark it in-flight, increment the
group's parallelism row (when the group is not `NULL`), record the job
in `tasks` and return it. Otherwise, if no `status = 0` row exists,
raise `Empty`. Otherwise fetch `min("timestamp")` from `throttle` — an
aggregate, so `fetchone()` always yields exactly one row, whose single
column is `NULL` on an empty table; the source's
`if throttle_row is not None` is therefore always true, and when the
column is `NULL` the expression `throttle_row[0] - now()` raises a
`TypeError`; when it is a number the wait bound is
`max(0, ts - now()) + TIMER_EPSILON`. -/
def getNowaitStep {δ : Type} (cfg : Config) (nowT : Rat) (st : QState δ) : GetOutcome δ :=
  match sqlGetJob cfg nowT st with
  | some row =>
      let job : CrawlJob δ := rowToJob row
      let queue' := setStatusInFlight row.index st.queue
      let par' :=
        match job.group with
        | none => st.parallelism
        | some g => incrementParallelism g st.parallelism
      .got job
        { st with
          queue := queue'
          parallelism := par'
          tasks := tasksSet job row.index st.tasks }
  | none =>
      if countPending st == 0 then
        .drained
      else
        let throttleRow : Option (Option Rat) := some (minThrottle st)
        match throttleRow with
        | none => .waitRetry none
        | some ts? =>
            match ts? with
            | none => .typeError
            | some ts => .waitRetry (some (max 0 (ts - nowT) + TIMER_EPSILON))

/-- The failures `task_done` can raise (`new_queue.py` lines 372-392):
the `RuntimeError("job is not being worked")` at line 377, and the
`IntegrityError` sqlite raises when `SQL_UPDATE_THROTTLE` inserts a
`NULL` key into the `WITHOUT ROWID` table `throttle` (its `TEXT PRIMARY
KEY` is implicitly `NOT NULL`). -/
inductive TaskDoneError where
  | notBeingWorked
  | nullGroupThrottle
deriving DecidableEq, Repr

/-- `INSERT OR REPLACE INTO "throttle" ("group", "timestamp")`
(`SQL_UPDATE_THROTTLE`, `new_queue.py` lines 96-98). -/
def throttleUpsert (g : String) (ts : Rat) (tbl : List (String × Rat)) : List (String × Rat) :=
  match alistGet g tbl with
  | none => (g, ts) :: tbl
  | some _ => tbl.map (fun p => if p.1 = g then (p.1, ts) else p)

/-- `CrawlerQueue.__cleanup` (`new_queue.py` lines 350-355): reset
`current_task_done_count`, delete `parallelism` rows with `count < 1`,
delete `throttle` rows with `timestamp < now`, compact (a no-op on the
logical state). -/
def cleanupRun {δ : Type} (nowT : Rat) (st : QState δ) : QState δ :=
  { st with
    currentTaskDoneCount := 0
    parallelism := st.parallelism.filter (fun p => decide (1 ≤ p.2))
    throttle := st.throttle.filter (fun p => decide (nowT ≤ p.2)) }

/-- `CrawlerQueue.task_done` (`new_queue.py` lines 372-395) at time
`nowT`: look the job up in `tasks` (by id-equality) — absent means
`RuntimeError`; delete the queue row with its index; decrement the
group's parallelism count (`WHERE "group" = ?` matches nothing when the
group is `NULL`); if the configured throttle is nonzero, upsert the
group's throttle row to `now + throttle` (raising on a `NULL` group,
which aborts and rolls back the transaction); add 0 — as written in the
source — to `current_task_done_count`; run the inline cleanup when that
count has reached `cleanup_interval`. The `tasks` entry is not removed
anywhere in the source. -/
def taskDone {δ : Type} (cfg : Config) (nowT : Rat) (job : CrawlJob δ) (st : QState δ) :
    Except TaskDoneError (QState δ) :=
  match tasksGet st.tasks job with
  | none => .error .notBeingWorked
  | some idx =>
      let queue' := st.queue.filter (fun r => r.index != idx)
      let par' :=
        match job.group with
        | none => st.parallelism
        | some g => st.parallelism.map (fun p => if p.1 = g then (p.1, p.2 - 1) else p)
      if cfg.throttle ≠ 0 ∧ job.group = none then
        .error .nullGroupThrottle
      else
        let thr' :=
          if cfg.throttle ≠ 0 then
            match job.group with
            | none => st.throttle
            | some g => throttleUpsert g (nowT + cfg.throttle) st.throttle
          else st.throttle
        let c' := st.currentTaskDoneCount + 0
        let st' :=
          { st with
            queue := queue'
            parallelism := par'
            throttle := thr'
            currentTaskDoneCount := c' }
        .ok (if c' ≥ cfg.cleanupInterval then cleanupRun nowT st' else st')

/-- The sqlite error surfaced by the embedding: the `IntegrityError`
(`UNIQUE constraint failed: queue.index`) raised when an `INSERT` reuses
the `INTEGER PRIMARY KEY` of an existing `queue` row. -/
inductive SqlError where
  | integrityError
deriving DecidableEq, Repr

/-- The rows built by the loop of `put_many` (`new_queue.py`
lines 233-247): consecutive indexes starting at `counter`, one row per
job in input order. -/
def buildRows {δ : Type} (counter : Int) : List (CrawlJob δ) → List (QueueRow δ)
  | [] => []
  | j :: js => jobToRow counter j :: buildRows (counter + 1) js

/-- `cursor.executemany(SQL_INSERT_JOB, rows)`: insert the rows in
order; inserting an `index` already present in the table violates the
primary key and raises `IntegrityError` (the enclosing transaction then
rolls back). -/
def insertRows {δ : Type} : List (QueueRow δ) → List (QueueRow δ) →
    Except SqlError (List (QueueRow δ))
  | [], queue => .ok queue
  | r :: rest, queue =>
      if queue.any (fun q => q.index == r.index) then .error .integrityError
      else insertRows rest (queue ++ [r])

/-- `CrawlerQueue.put_many` (`new_queue.py` lines 229-257): build one
row per job, assigning `index = counter` and incrementing the counter
each time; execute the inserts in one transaction; return
`cursor.rowcount`, the number of inserted rows. On an insert failure
the transaction rolls back (the in-memory counter increment is not
undone, but no error path below observes it). -/
def putMany {δ : Type} (jobs : List (CrawlJob δ)) (st : QState δ) :
    Except SqlError (QState δ × Int) :=
  match insertRows (buildRows st.counter jobs) st.queue with
  | .error e => .error e
  | .ok queue' =>
      .ok ({ st with queue := queue', counter := st.counter + jobs.length },
           jobs.length)

/-- `CrawlerQueue.__clear` as driven by `clear()` (`new_queue.py`
lines 361-370): reset `current_task_done_count`, delete every
`parallelism` row, delete every `throttle` row, compact. -/
def clear {δ : Type} (st : QState δ) : QState δ :=
  { st with
    currentTaskDoneCount := 0
    parallelism := []
    throttle := [] }

/-- `SELECT max("index") FROM "queue"`: `NULL` on an empty table. -/
def maxIndex {δ : Type} (rows : List (QueueRow δ)) : Option Int :=
  match rows.map (fun r => r.index) with
  | [] => none
  | i :: is => some (is.foldl max i)

/-- The resuming branch of `CrawlerQueue.__init__` (`new_queue.py`
lines 174-189) over the persisted `queue` and `throttle` tables:
`self.counter = cursor.fetchone()[0]` stores the raw SQL
`max("index")` — not `max + 1`; reset every `status ≠ 0` row to 0;
delete all `parallelism` rows; delete `throttle` rows with
`timestamp < now`; the in-flight map starts empty. On an empty `queue`
table the SQL `max` is `NULL`, Python `None` lands in `self.counter`
and every later insert would crash, so initialization is modelled as
returning `none` in that case. -/
def resumeInit {δ : Type} (nowT : Rat) (queue : List (QueueRow δ))
    (throttle : List (String × Rat)) : Option (QState δ) :=
  match maxIndex queue with
  | none => none
  | some m =>
      some
        { queue := queue.map (fun r => if r.status ≠ 0 then { r with status := 0 } else r)
          throttle := throttle.filter (fun p => decide (nowT ≤ p.2))
          parallelism := []
          tasks := []
          counter := m
          currentTaskDoneCount := 0 }

/-- One external operation on a queue, for reasoning about whole runs:
a `put_many`, one pass of `get_nowait` at a given time, a `task_done`
at a given time, or a `clear`. -/
inductive Op (δ : Type) where
  | put (jobs : List (CrawlJob δ))
  | get (nowT : Rat)
  | done (nowT : Rat) (job : CrawlJob δ)
  | clearAll
deriving Repr

/-- Apply one operation: the resulting state and the job returned by
`get_nowait`, if any. A failing operation rolls its transaction back
and leaves the state unchanged; a waiting or drained `get` pass changes
nothing. -/
def applyOp {δ : Type} (cfg : Config) (st : QState δ) : Op δ → QState δ × Option (CrawlJob δ)
  | .put jobs =>
      match putMany jobs st with
      | .ok (st', _) => (st', none)
      | .error _ => (st, none)
  | .get t =>
      match getNowaitStep cfg t st with
      | .got j st' => (st', some j)
      | _ => (st, none)
  | .done t j =>
      match taskDone cfg t j st with
      | .ok st' => (st', none)
      | .error _ => (st, none)
  | .clearAll => (clear st, none)

/-- Run a list of operations from a state, collecting every job
returned by `get_nowait`. -/
def runOps {δ : Type} (cfg : Config) (st : QState δ) : List (Op δ) → QState δ × List (CrawlJob δ)
  | [] => (st, [])
  | op :: ops =>
      let r := applyOp cfg st op
      let rest := runOps cfg r.1 ops
      (rest.1, r.2.toList ++ rest.2)

/-- The job `j` was handed to `put_many` by one of the operations. -/
def enqueuedIn {δ : Type} (ops : List (Op δ)) (j : CrawlJob δ) : Prop :=
  ∃ jobs, Op.put jobs ∈ ops ∧ j ∈ jobs

/-! Concrete instances (payload type `String`) used by the closed
witness and counterexample theorems below. -/

/-- Default-like configuration: FIFO, `group_parallelism = 1`,
`throttle = 0`, `cleanup_interval = 1000`. -/
def cfg0 : Config :=
  { isLifo := false, groupParallelism := 1, throttle := 0, cleanupInterval := 1000 }

/-- A configuration with `cleanup_interval = 1`: the inline cleanup is
supposed to run after every completion. -/
def cfg7 : Config :=
  { isLifo := false, groupParallelism := 1, throttle := 0, cleanupInterval := 1 }

/-- A sample job in group `g`. -/
def jobA : CrawlJob String :=
  { id := "a", url := "http://a.example", group := some "g", depth := 0,
    spider := none, priority := 0, data := some "payload", parent := none }

/-- A distinct job value sharing `jobA`'s id but agreeing on no other
field. -/
def jobK : CrawlJob String :=
  { id := "a", url := "http://other.example", group := some "g", depth := 3,
    spider := some "s", priority := 7, data := none, parent := some "p" }

/-- A low-priority row (`priority = 5`, `index = 0`). -/
def rLow : QueueRow String :=
  { index := 0, status := 0, id := "r0", url := "http://r0", group := none,
    depth := 0, spider := none, priority := 5, data := none, parent := none }

/-- A high-priority row (`priority = 1`, `index = 1`). -/
def rHigh : QueueRow String :=
  { index := 1, status := 0, id := "r1", url := "http://r1", group := none,
    depth := 0, spider := none, priority := 1, data := none, parent := none }

/-- A queue holding `rLow` and `rHigh`, no throttle or parallelism rows. -/
def stC2 : QState String :=
  { queue := [rLow, rHigh], throttle := [], parallelism := [], tasks := [],
    counter := 2, currentTaskDoneCount := 0 }

/-- The state `getNowaitStep` produces from `stC2`: `rHigh` marked
in-flight and recorded in the in-flight map. -/
def stC2' : QState String :=
  { queue := [rLow, { rHigh with status := 1 }], throttle := [], parallelism := [],
    tasks := [(rowToJob rHigh, 1)], counter := 2, currentTaskDoneCount := 0 }

/-- A persisted pending row with `index = 0`, for the resume scenario. -/
def rowR : QueueRow String :=
  { index := 0, status := 0, id := "p", url := "http://p", group := none,
    depth := 0, spider := none, priority := 0, data := none, parent := none }

/-- The state produced by reopening a store holding only `rowR` with
`resume`: the counter restarts at `max("index") = 0`. -/
def stC3 : QState String :=
  { queue := [rowR], throttle := [], parallelism := [], tasks := [],
    counter := 0, currentTaskDoneCount := 0 }

/-- A pending row in group `g`. -/
def rowG : QueueRow String :=
  { index := 0, status := 0, id := "g0", url := "http://g0", group := some "g",
    depth := 0, spider := none, priority := 0, data := none, parent := none }

/-- One pending job of group `g` while `g` already has one in-flight
reservation and the throttle table is empty: no row is eligible, yet
pending work exists. -/
def stC4 : QState String :=
  { queue := [rowG], throttle := [], parallelism := [("g", 1)], tasks := [],
    counter := 1, currentTaskDoneCount := 0 }

/-- Two pending rows in group `h`. -/
def rowH : QueueRow String :=
  { index := 0, status := 0, id := "h0", url := "http://h0", group := some "h",
    depth := 0, spider := none, priority := 0, data := none, parent := none }

/-- Second pending row in group `h` (`index = 1`). -/
def rowH2 : QueueRow String :=
  { index := 1, status := 0, id := "h1", url := "http://h1", group := some "h",
    depth := 0, spider := none, priority := 0, data := none, parent := none }

/-- Pending work blocked purely by parallelism (group `h` saturated),
empty throttle table. -/
def stC6 : QState String :=
  { queue := [rowH, rowH2], throttle := [], parallelism := [("h", 1)], tasks := [],
    counter := 2, currentTaskDoneCount := 0 }

/-- The state reached from a fresh queue by `put jobA` followed by one
successful `get_nowait` pass at time 0: the row is in-flight, group `g`
holds one reservation, and `jobA` sits in the in-flight map. -/
def stC5 : QState String :=
  { queue := [{ jobToRow 0 jobA with status := 1 }], throttle := [],
    parallelism := [("g", 1)], tasks := [(jobA, 0)], counter := 1,
    currentTaskDoneCount := 0 }

/-- The state `task_done jobA` produces from `stC5`: the queue row is
deleted and the reservation released — but the in-flight map entry is
still there, and `current_task_done_count` is still 0. -/
def stC5' : QState String :=
  { queue := [], throttle := [], parallelism := [("g", 0)],
    tasks := [(jobA, 0)], counter := 1, currentTaskDoneCount := 0 }

/-! General lemmas about the selection order and the `LIMIT 1` fold. -/

theorem rowBefore_irrefl {δ : Type} (lifo : Bool) (a : QueueRow δ) :
    rowBefore lifo a a = false := by
  cases lifo <;> simp [rowBefore]

theorem rowBefore_trans {δ : Type} (lifo : Bool) (a b c : QueueRow δ)
    (h1 : rowBefore lifo a b = true) (h2 : rowBefore lifo b c = true) :
    rowBefore lifo a c = true := by
  cases lifo <;> simp [rowBefore] at h1 h2 ⊢ <;> omega

/-- The left fold that keeps the smaller element computes a minimum:
the result is the start value or a list member, it does not sort after
the start value, and no list member sorts strictly before it. -/
theorem foldlMin_spec {α : Type} (lt : α → α → Bool)
    (hirr : ∀ a, lt a a = false)
    (htr : ∀ a b c, lt a b = true → lt b c = true → lt a c = true)
    (l : List α) : ∀ acc : α,
      (l.foldl (fun a y => if lt y a then y else a) acc = acc ∨
        l.foldl (fun a y => if lt y a then y else a) acc ∈ l) ∧
      (l.foldl (fun a y => if lt y a then y else a) acc = acc ∨
        lt (l.foldl (fun a y => if lt y a then y else a) acc) acc = true) ∧
      ∀ z ∈ l, lt z (l.foldl (fun a y => if lt y a then y else a) acc) = false := by
  induction l with
  | nil =>
      intro acc
      exact ⟨Or.inl rfl, Or.inl rfl, fun z hz => absurd hz (List.not_mem_nil z)⟩
  | cons y l ih =>
      intro acc
      have hstep : List.foldl (fun a z => if lt z a then z else a) acc (y :: l)
          = List.foldl (fun a z => if lt z a then z else a) (if lt y acc then y else acc) l := rfl
      by_cases hy : lt y acc = true
      · rw [hstep, if_pos hy]
        obtain ⟨ihA, ihB, ihC⟩ := ih y
        refine ⟨?_, ?_, ?_⟩
        · rcases ihA with h1 | h1
          · exact Or.inr (by rw [h1]; exact List.mem_cons_self y l)
          · exact Or.inr (List.mem_cons_of_mem y h1)
        · rcases ihB with h1 | h1
          · exact Or.inr (by rw [h1]; exact hy)
          · exact Or.inr (htr _ y acc h1 hy)
        · intro z hz
          rcases List.mem_cons.mp hz with h1 | h1
          · subst h1
            cases hzr : lt z (List.foldl (fun a w => if lt w a then w else a) z l) with
            | false => rfl
            | true =>
                exfalso
                rcases ihB with h2 | h2
                · rw [h2, hirr z] at hzr; exact Bool.false_ne_true hzr
                · have h3 := htr z _ z hzr h2
                  rw [hirr z] at h3; exact Bool.false_ne_true h3
          · exact ihC z h1
      · rw [hstep, if_neg hy]
        obtain ⟨ihA, ihB, ihC⟩ := ih acc
        refine ⟨?_, ?_, ?_⟩
        · rcases ihA with h1 | h1
          · exact Or.inl h1
          · exact Or.inr (List.mem_cons_of_mem y h1)
        · exact ihB
        · intro z hz
          rcases List.mem_cons.mp hz with h1 | h1
          · subst h1
            cases hzr : lt z (List.foldl (fun a w => if lt w a then w else a) acc l) with
            | false => rfl
            | true =>
                exfalso
                rcases ihB with h2 | h2
                · rw [h2] at hzr; exact hy hzr
                · exact hy (htr z _ acc hzr h2)
          · exact ihC z h1

/-- `firstByOrder` returns a member no other member sorts strictly
before. -/
theorem firstByOrder_spec {α : Type} (lt : α → α → Bool)
    (hirr : ∀ a, lt a a = false)
    (htr : ∀ a b c, lt a b = true → lt b c = true → lt a c = true)
    (l : List α) (r : α) (h : firstByOrder lt l = some r) :
    r ∈ l ∧ ∀ z ∈ l, lt z r = false := by
  cases l with
  | nil => cases h
  | cons x xs =>
      have hr : xs.foldl (fun a y => if lt y a then y else a) x = r :=
        Option.some.inj h
      obtain ⟨hA, hB, hC⟩ := foldlMin_spec lt hirr htr xs x
      rw [hr] at hA hB hC
      constructor
      · rcases hA with h1 | h1
        · exact h1 ▸ List.mem_cons_self x xs
        · exact List.mem_cons_of_mem x h1
      · intro z hz
        rcases List.mem_cons.mp hz with h1 | h1
        · subst h1
          cases hzr : lt z r with
          | false => rfl
          | true =>
              exfalso
              rcases hB with h2 | h2
              · rw [h2] at hzr; rw [hirr z] at hzr; exact Bool.false_ne_true hzr
              · have := htr z r z hzr h2
                rw [hirr z] at this; exact Bool.false_ne_true this
        · exact hC z h1

/-- Characterization of `SQL_GET_JOB`: a returned row is a `queue` row
satisfying the `WHERE` clause, and no `queue` row satisfying the clause
sorts strictly before it. -/
theorem sqlGetJob_spec {δ : Type} (cfg : Config) (nowT : Rat) (st : QState δ)
    (r : QueueRow δ) (h : sqlGetJob cfg nowT st = some r) :
    r ∈ st.queue ∧ sqlGetJobWhere st nowT cfg.groupParallelism r = true ∧
      ∀ r' ∈ st.queue, sqlGetJobWhere st nowT cfg.groupParallelism r' = true →
        rowBefore cfg.isLifo r' r = false := by
  obtain ⟨hmem, hmin⟩ := firstByOrder_spec (rowBefore cfg.isLifo)
    (rowBefore_irrefl cfg.isLifo) (rowBefore_trans cfg.isLifo) _ r h
  have hm := List.mem_filter.mp hmem
  exact ⟨hm.1, hm.2, fun r' hr' hw => hmin r' (List.mem_filter.mpr ⟨hr', hw⟩)⟩

/-- Inversion of a successful `get_nowait` pass: the returned job is
reconstructed from the row `SQL_GET_JOB` selected, and the new queue is
the old one with that row marked in-flight. -/
theorem getNowaitStep_got_inv {δ : Type} (cfg : Config) (nowT : Rat)
    (st st' : QState δ) (j : CrawlJob δ)
    (h : getNowaitStep cfg nowT st = .got j st') :
    ∃ r, sqlGetJob cfg nowT st = some r ∧ j = rowToJob r ∧
      st'.queue = setStatusInFlight r.index st.queue := by
  cases hq : sqlGetJob cfg nowT st with
  | none =>
      exfalso
      simp only [getNowaitStep, hq] at h
      split at h
      · cases h
      · split at h <;> cases h
  | some row =>
      simp only [getNowaitStep, hq, GetOutcome.got.injEq] at h
      refine ⟨row, rfl, h.1.symm, ?_⟩
      rw [← h.2]

/-! Lemmas tracking which rows a run of operations can put in the
`queue` table, and which jobs a run can return. -/

theorem rowToJob_jobToRow {δ : Type} (i : Int) (j : CrawlJob δ) :
    rowToJob (jobToRow i j) = j := rfl

/-- Every row built by the `put_many` loop reconstructs to one of the
jobs handed to it. -/
theorem buildRows_mem {δ : Type} (js : List (CrawlJob δ)) :
    ∀ (c : Int) (r : QueueRow δ), r ∈ buildRows c js → rowToJob r ∈ js := by
  induction js with
  | nil => intro c r h; cases h
  | cons j js ih =>
      intro c r h
      rcases List.mem_cons.mp h with h1 | h1
      · subst h1
        rw [rowToJob_jobToRow]
        exact List.mem_cons_self j js
      · exact List.mem_cons_of_mem j (ih (c + 1) r h1)

/-- Every row of the table produced by a successful `executemany` was
already in the table or is one of the inserted rows. -/
theorem insertRows_mem {δ : Type} (rows : List (QueueRow δ)) :
    ∀ (q q' : List (QueueRow δ)), insertRows rows q = .ok q' →
      ∀ r ∈ q', r ∈ q ∨ r ∈ rows := by
  induction rows with
  | nil =>
      intro q q' h r hr
      simp only [insertRows, Except.ok.injEq] at h
      exact Or.inl (h ▸ hr)
  | cons x rows ih =>
      intro q q' h r hr
      rw [insertRows] at h
      split at h
      · cases h
      · rcases ih (q ++ [x]) q' h r hr with h1 | h1
        · rcases List.mem_append.mp h1 with h2 | h2
          · exact Or.inl h2
          · right
            rw [List.mem_singleton.mp h2]
            exact List.mem_cons_self x rows
        · exact Or.inr (List.mem_cons_of_mem x h1)

/-- Marking a row in-flight only changes `status`: every resulting row
reconstructs to the same job as some original row. -/
theorem setStatusInFlight_mem {δ : Type} (idx : Int) (q : List (QueueRow δ))
    (r' : QueueRow δ) (h : r' ∈ setStatusInFlight idx q) :
    ∃ r ∈ q, rowToJob r' = rowToJob r := by
  obtain ⟨r, hr, hmap⟩ := List.mem_map.mp h
  refine ⟨r, hr, ?_⟩
  split at hmap
  · rw [← hmap]; rfl
  · rw [← hmap]

/-- A successful `task_done` only ever deletes `queue` rows. -/
theorem taskDone_queue_sub {δ : Type} (cfg : Config) (t : Rat) (j : CrawlJob δ)
    (st st' : QState δ) (h : taskDone cfg t j st = .ok st') :
    ∀ r ∈ st'.queue, r ∈ st.queue := by
  intro r hr
  unfold taskDone at h
  cases hg : tasksGet st.tasks j with
  | none => rw [hg] at h; cases h
  | some idx =>
      rw [hg] at h
      dsimp only at h
      split at h
      · cases h
      · rw [Except.ok.injEq] at h
        have hqueue : st'.queue = st.queue.filter (fun r => r.index != idx) := by
          rw [← h]
          split <;> rfl
        rw [hqueue] at hr
        exact List.mem_of_mem_filter hr

/-- One operation can only keep rows (modulo the `status` flag) or add
rows that come from jobs handed to a `put`. -/
theorem applyOp_queue {δ : Type} (cfg : Config) (st : QState δ) (op : Op δ)
    (r' : QueueRow δ) (h : r' ∈ (applyOp cfg st op).1.queue) :
    (∃ r ∈ st.queue, rowToJob r' = rowToJob r) ∨
      ∃ jobs, op = Op.put jobs ∧ rowToJob r' ∈ jobs := by
  cases op with
  | put jobs =>
      simp only [applyOp] at h
      cases hp : putMany jobs st with
      | error e => rw [hp] at h; exact Or.inl ⟨r', h, rfl⟩
      | ok p =>
          rw [hp] at h
          unfold putMany at hp
          cases hi : insertRows (buildRows st.counter jobs) st.queue with
          | error e => rw [hi] at hp; cases hp
          | ok q' =>
              rw [hi, Except.ok.injEq] at hp
              have hq : p.1.queue = q' := by rw [← hp]
              rw [hq] at h
              rcases insertRows_mem (buildRows st.counter jobs) st.queue q' hi r' h with h1 | h1
              · exact Or.inl ⟨r', h1, rfl⟩
              · exact Or.inr ⟨jobs, rfl, buildRows_mem jobs st.counter r' h1⟩
  | get t =>
      simp only [applyOp] at h
      cases hq : getNowaitStep cfg t st with
      | got j st1 =>
          rw [hq] at h
          obtain ⟨r0, hq0, hj, hqueue⟩ := getNowaitStep_got_inv cfg t st st1 j hq
          rw [hqueue] at h
          exact Or.inl (setStatusInFlight_mem r0.index st.queue r' h)
      | drained => rw [hq] at h; exact Or.inl ⟨r', h, rfl⟩
      | waitRetry b => rw [hq] at h; exact Or.inl ⟨r', h, rfl⟩
      | typeError => rw [hq] at h; exact Or.inl ⟨r', h, rfl⟩
  | done t j =>
      simp only [applyOp] at h
      cases hd : taskDone cfg t j st with
      | ok st1 =>
          rw [hd] at h
          exact Or.inl ⟨r', taskDone_queue_sub cfg t j st st1 hd r' h, rfl⟩
      | error e => rw [hd] at h; exact Or.inl ⟨r', h, rfl⟩
  | clearAll =>
      exact Or.inl ⟨r', h, rfl⟩

/-- A job returned by one operation is reconstructed from a row of the
pre-state `queue` table. -/
theorem applyOp_out {δ : Type} (cfg : Config) (st : QState δ) (op : Op δ)
    (j : CrawlJob δ) (h : (applyOp cfg st op).2 = some j) :
    ∃ r ∈ st.queue, j = rowToJob r := by
  cases op with
  | put jobs =>
      exfalso
      simp only [applyOp] at h
      cases hp : putMany jobs st <;> rw [hp] at h <;> cases h
  | get t =>
      simp only [applyOp] at h
      cases hq : getNowaitStep cfg t st with
      | got j' st1 =>
          rw [hq] at h
          have hj' : j' = j := Option.some.inj h
          subst hj'
          obtain ⟨r, hq0, hj, -⟩ := getNowaitStep_got_inv cfg t st st1 j' hq
          exact ⟨r, (sqlGetJob_spec cfg t st r hq0).1, hj⟩
      | drained => rw [hq] at h; cases h
      | waitRetry b => rw [hq] at h; cases h
      | typeError => rw [hq] at h; cases h
  | done t j' =>
      exfalso
      simp only [applyOp] at h
      cases hd : taskDone cfg t j' st <;> rw [hd] at h <;> cases h
  | clearAll => cases h

theorem enqueuedIn_cons {δ : Type} (op : Op δ) (ops : List (Op δ)) (j : CrawlJob δ)
    (h : enqueuedIn ops j) : enqueuedIn (op :: ops) j := by
  obtain ⟨jobs, h1, h2⟩ := h
  exact ⟨jobs, List.mem_cons_of_mem op h1, h2⟩

/-- Soundness of a whole run: every row ever in the `queue` table comes
from the initial table (modulo `status`) or from an enqueued job, and
every job a `get_nowait` pass returned comes from an initial row or an
enqueued job. -/
theorem runOps_sound {δ : Type} (cfg : Config) (ops : List (Op δ)) :
    ∀ st : QState δ,
      (∀ r' ∈ (runOps cfg st ops).1.queue,
        (∃ r ∈ st.queue, rowToJob r' = rowToJob r) ∨ enqueuedIn ops (rowToJob r')) ∧
      (∀ j ∈ (runOps cfg st ops).2,
        (∃ r ∈ st.queue, j = rowToJob r) ∨ enqueuedIn ops j) := by
  induction ops with
  | nil =>
      intro st
      constructor
      · intro r' h; exact Or.inl ⟨r', h, rfl⟩
      · intro j h; cases h
  | cons op ops ih =>
      intro st
      have hfst : (runOps cfg st (op :: ops)).1
          = (runOps cfg (applyOp cfg st op).1 ops).1 := rfl
      have hsnd : (runOps cfg st (op :: ops)).2
          = (applyOp cfg st op).2.toList ++ (runOps cfg (applyOp cfg st op).1 ops).2 := rfl
      constructor
      · intro r' h
        rw [hfst] at h
        rcases (ih (applyOp cfg st op).1).1 r' h with ⟨rr, hrr, he⟩ | henq
        · rcases applyOp_queue cfg st op rr hrr with ⟨r0, hr0, he2⟩ | ⟨jobs, hop, hin⟩
          · exact Or.inl ⟨r0, hr0, he.trans he2⟩
          · refine Or.inr ⟨jobs, ?_, ?_⟩
            · rw [hop]; exact List.mem_cons_self _ _
            · rw [he]; exact hin
        · exact Or.inr (enqueuedIn_cons op ops _ henq)
      · intro j h
        rw [hsnd] at h
        rcases List.mem_append.mp h with h1 | h1
        · have h2 : (applyOp cfg st op).2 = some j := by
            cases ho : (applyOp cfg st op).2 with
            | none => rw [ho] at h1; cases h1
            | some j' =>
                rw [ho] at h1
                rw [List.mem_singleton.mp h1]
          exact Or.inl (applyOp_out cfg st op j h2)
        · rcases (ih (applyOp cfg st op).1).2 j h1 with ⟨rr, hrr, he⟩ | henq
          · rcases applyOp_queue cfg st op rr hrr with ⟨r0, hr0, he2⟩ | ⟨jobs, hop, hin⟩
            · exact Or.inl ⟨r0, hr0, he.trans he2⟩
            · refine Or.inr ⟨jobs, ?_, ?_⟩
              · rw [hop]; exact List.mem_cons_self _ _
              · rw [he]; exact hin
          · exact Or.inr (enqueuedIn_cons op ops _ henq)

/-- Looking a job up in the in-flight map succeeds whenever the map
holds an entry whose key shares the job's id. -/
theorem tasksGet_of_id {δ : Type} (ts : List (CrawlJob δ × Int)) :
    ∀ (p j : CrawlJob δ) (i : Int), (p, i) ∈ ts → p.id = j.id →
      ∃ v, tasksGet ts j = some v := by
  induction ts with
  | nil => intro p j i hp _; cases hp
  | cons kv rest ih =>
      intro p j i hp hid
      obtain ⟨k, v⟩ := kv
      rw [tasksGet]
      cases hk : jobEq k j with
      | true => exact ⟨v, by rw [if_pos rfl]⟩
      | false =>
          rw [if_neg Bool.false_ne_true]
          rcases List.mem_cons.mp hp with h1 | h1
          · exfalso
            have hkp : p = k := congrArg Prod.fst h1
            rw [jobEq, ← hkp, hid, beq_self_eq_true] at hk
            exact Bool.false_ne_true hk.symm
          · exact ih p j i h1 hid

/-! The claim theorems. -/

/-- Claim C1: every job returned by a `get_nowait` pass over any run of
operations started from a fresh queue agrees — on `url`, `depth`,
`spider`, `data`, `group`, `priority` and `parent` — with a job that was
handed to `put`/`put_many` during the run: jobs round-trip through the
persistent store. -/
theorem put_get_roundtrip {δ : Type} (cfg : Config) (ops : List (Op δ))
    (j : CrawlJob δ) (hj : j ∈ (runOps cfg (freshState δ) ops).2) :
    ∃ j0, enqueuedIn ops j0 ∧ j.url = j0.url ∧ j.depth = j0.depth ∧
      j.spider = j0.spider ∧ j.data = j0.data ∧ j.group = j0.group ∧
      j.priority = j0.priority ∧ j.parent = j0.parent := by
  rcases (runOps_sound cfg ops (freshState δ)).2 j hj with ⟨r, hr, -⟩ | henq
  · cases hr
  · exact ⟨j, henq, rfl, rfl, rfl, rfl, rfl, rfl, rfl⟩

/-- Witness for C1: in the run `put [jobA]; get_nowait`, the returned
job `jobA` round-trips. -/
theorem put_get_roundtrip_witness :
    ∃ j0, enqueuedIn [Op.put [jobA], Op.get 0] j0 ∧ jobA.url = j0.url ∧
      jobA.depth = j0.depth ∧ jobA.spider = j0.spider ∧ jobA.data = j0.data ∧
      jobA.group = j0.group ∧ jobA.priority = j0.priority ∧
      jobA.parent = j0.parent :=
  put_get_roundtrip cfg0 [Op.put [jobA], Op.get 0] jobA (by decide)

/-- Claim C2: whenever a `get_nowait` pass returns a job, that job is
reconstructed from a `queue` row satisfying the `WHERE` clause of
`SQL_GET_JOB` — `status = 0`, throttle row absent or its timestamp
`≤ now`, parallelism row absent or its count strictly below the cap —
and no other row satisfying that clause sorts strictly before it under
`priority ASC, index ASC` (FIFO) or `priority ASC, index DESC` (LIFO). -/
theorem get_selects_first_eligible {δ : Type} (cfg : Config) (nowT : Rat)
    (st st' : QState δ) (j : CrawlJob δ)
    (h : getNowaitStep cfg nowT st = .got j st') :
    ∃ r ∈ st.queue, j = rowToJob r ∧
      sqlGetJobWhere st nowT cfg.groupParallelism r = true ∧
      ∀ r' ∈ st.queue, sqlGetJobWhere st nowT cfg.groupParallelism r' = true →
        rowBefore cfg.isLifo r' r = false := by
  obtain ⟨r, hq, hj, -⟩ := getNowaitStep_got_inv cfg nowT st st' j h
  obtain ⟨hmem, hw, hmin⟩ := sqlGetJob_spec cfg nowT st r hq
  exact ⟨r, hmem, hj, hw, hmin⟩

/-- Witness for C2: on a queue holding a priority-5 and a priority-1
row, the returned job is the eligible, minimal priority-1 row. -/
theorem get_selects_first_eligible_witness :
    ∃ r ∈ stC2.queue, rowToJob rHigh = rowToJob r ∧
      sqlGetJobWhere stC2 0 cfg0.groupParallelism r = true ∧
      ∀ r' ∈ stC2.queue, sqlGetJobWhere stC2 0 cfg0.groupParallelism r' = true →
        rowBefore cfg0.isLifo r' r = false :=
  get_selects_first_eligible cfg0 0 stC2 stC2' (rowToJob rHigh) rfl

/-- Claim C3 (code bug): the resuming branch of `__init__` restarts the
counter at the raw `max("index")`, not `max("index") + 1`: reopening a
store whose only row has index 0 yields `counter = 0`, and the first
`put_many` then builds a row with index 0, which collides with the
persisted row's primary key and fails with `IntegrityError`. -/
theorem resume_counter_collision :
    resumeInit 0 [rowR] [] = some stC3 ∧ stC3.counter = 0 ∧ rowR.index = 0 ∧
      putMany [jobA] stC3 = Except.error SqlError.integrityError :=
  ⟨rfl, rfl, rfl, rfl⟩

/-- Claim C4 (code bug): at a state with one pending (`status = 0`) but
ineligible row and an empty `throttle` table, the count of pending rows
is nonzero — so Drained is (correctly) not raised — but instead of
waiting, the pass raises a `TypeError`: `fetchone` on the aggregate
`min("timestamp")` always yields a row, the `throttle_row is not None`
test is thus always true, and the row's single column is `None`. -/
theorem pending_not_eligible_raises :
    countPending stC4 = 1 ∧ getNowaitStep cfg0 0 stC4 = GetOutcome.typeError :=
  ⟨rfl, rfl⟩

/-- Claim C5 (code bug): running `put jobA; get_nowait` from a fresh
queue and then `task_done jobA` deletes the queue row but leaves the
in-flight map entry in place: afterwards the map holds an entry that
refers to no `status = 1` row. -/
theorem task_done_keeps_inflight_entry :
    runOps cfg0 (freshState String) [Op.put [jobA], Op.get 0] = (stC5, [jobA]) ∧
      taskDone cfg0 0 jobA stC5 = Except.ok stC5' ∧
      stC5'.tasks = [(jobA, 0)] ∧ stC5'.queue = [] :=
  ⟨rfl, rfl, rfl, rfl⟩

/-- Claim C6 (code bug): with pending rows blocked purely by group
parallelism and an empty `throttle` table, the bounded-wait branch is
still entered — the aggregate `min("timestamp")` returns one row
holding NULL, so `throttle_row is not None` holds — and computing the
bound raises a `TypeError` instead of performing an unbounded wait. -/
theorem parallelism_block_no_unbounded_wait :
    minThrottle stC6 = none ∧ countPending stC6 = 2 ∧
      getNowaitStep cfg0 0 stC6 = GetOutcome.typeError :=
  ⟨rfl, rfl, rfl⟩

/-- Claim C7 (code bug): the completion path executes
`current_task_done_count += 0`: even with `cleanup_interval = 1`, a
successful `task_done` leaves the count at 0 instead of raising it to
1, and the inline cleanup does not run — the `count = 0` parallelism
row survives instead of being deleted. -/
theorem task_done_count_not_incremented :
    cfg7.cleanupInterval = 1 ∧ taskDone cfg7 0 jobA stC5 = Except.ok stC5' ∧
      stC5'.currentTaskDoneCount = 0 ∧ stC5'.parallelism = [("g", 0)] :=
  ⟨rfl, rfl, rfl, rfl⟩

/-- Claim C8: `clear()` empties the `parallelism` and `throttle` tables
and leaves every `queue` row — pending or in-flight, with all fields —
unchanged, as well as the in-flight map and the counter: it modifies
scheduling state only. -/
theorem clear_scheduling_only {δ : Type} (st : QState δ) :
    (clear st).queue = st.queue ∧ (clear st).parallelism = [] ∧
      (clear st).throttle = [] ∧ (clear st).tasks = st.tasks ∧
      (clear st).counter = st.counter :=
  ⟨rfl, rfl, rfl, rfl, rfl⟩

/-- Claim C9: two jobs are equal exactly when their `id` fields are
equal, a job's hash is derived from its `id`, and consequently
`task_done` succeeds (here with the configured throttle 0) for any job
value whose id matches the key of an in-flight map entry — not only for
the identical object returned by `get_nowait`. -/
theorem jobs_equal_by_id {δ : Type} (cfg : Config) (t : Rat)
    (a b p j : CrawlJob δ) (i : Int) (st : QState δ)
    (hthr : cfg.throttle = 0) (hp : (p, i) ∈ st.tasks) (hid : p.id = j.id) :
    (jobEq a b = true ↔ a.id = b.id) ∧
    (a.id = b.id → jobHash a = jobHash b) ∧
    ∃ st', taskDone cfg t j st = Except.ok st' := by
  refine ⟨?_, ?_, ?_⟩
  · rw [jobEq]; exact beq_iff_eq
  · intro h; rw [jobHash, jobHash, h]
  · obtain ⟨v, hv⟩ := tasksGet_of_id st.tasks p j i hp hid
    unfold taskDone
    rw [hv]
    dsimp only
    rw [if_neg (by rw [hthr]; intro hc; exact hc.1 rfl)]
    exact ⟨_, rfl⟩

/-- Witness for C9: `jobK` shares only its id with the in-flight
`jobA`, and `task_done jobK` succeeds on the post-`get` state. -/
theorem jobs_equal_by_id_witness :
    (jobEq jobA jobK = true ↔ jobA.id = jobK.id) ∧
    (jobA.id = jobK.id → jobHash jobA = jobHash jobK) ∧
    ∃ st', taskDone cfg0 0 jobK stC5 = Except.ok st' :=
  jobs_equal_by_id cfg0 0 jobA jobK jobA jobK 0 stC5 (by decide) (by decide) rfl

/-- Claim C10: in `CrawlTarget.__init__` the spider-validation branch
tests the type of `depth`, not of `spider`: with a non-None spider the
constructor raises `TypeError` whenever `depth` is None, and whenever
`depth` is an int the spider error is never raised — with a string url,
any spider value (string or not) is accepted. -/
theorem spider_check_tests_depth (url depth spider data : PyVal)
    (hs : spider ≠ PyVal.pynone) :
    (depth = PyVal.pynone →
      ∃ msg, crawlTargetInit url depth spider data = .error msg) ∧
    (depth.isInt = true →
      crawlTargetInit url depth spider data ≠ .error ("spider should be a string") ∧
      (url.isStr = true →
        crawlTargetInit url depth spider data = .ok ⟨url, depth, spider, data⟩)) := by
  constructor
  · intro hd
    subst hd
    have hsp : (spider != PyVal.pynone) = true := by
      cases hsb : spider == PyVal.pynone with
      | true => exact absurd (eq_of_beq hsb) hs
      | false => show (!(spider == PyVal.pynone)) = true; rw [hsb]; rfl
    by_cases hu : url.isStr = true
    · exact ⟨"spider should be a string",
        by simp [crawlTargetInit, hu, hsp, PyVal.isInt]⟩
    · exact ⟨"url should be a string", by simp [crawlTargetInit, hu]⟩
  · intro hdi
    have hd2 : (depth != PyVal.pynone && !depth.isInt) = false := by
      rw [hdi]; exact Bool.and_false _
    have hd3 : (spider != PyVal.pynone && !depth.isInt) = false := by
      rw [hdi]; exact Bool.and_false _
    constructor
    · intro hbad
      rw [crawlTargetInit] at hbad
      split at hbad
      · exact absurd (Except.error.inj hbad) (by decide)
      · rw [if_neg (by rw [hd2]; exact Bool.false_ne_true)] at hbad
        rw [if_neg (by rw [hd3]; exact Bool.false_ne_true)] at hbad
        cases hbad
    · intro hu
      rw [crawlTargetInit, if_neg (by rw [hu]; exact fun hc => Bool.false_ne_true hc)]
      rw [if_neg (by rw [hd2]; exact Bool.false_ne_true)]
      rw [if_neg (by rw [hd3]; exact Bool.false_ne_true)]

/-- Witness for C10: a string spider is rejected when depth is None,
and a non-string spider is accepted when depth is an int. -/
theorem spider_check_tests_depth_witness :
    (∃ msg, crawlTargetInit (PyVal.str ("u")) PyVal.pynone (PyVal.str ("s"))
      (PyVal.obj 0) = .error msg) ∧
    crawlTargetInit (PyVal.str ("u")) (PyVal.int 1) (PyVal.obj 0) PyVal.pynone
      = .ok ⟨PyVal.str ("u"), PyVal.int 1, PyVal.obj 0, PyVal.pynone⟩ :=
  ⟨(spider_check_tests_depth (PyVal.str ("u")) PyVal.pynone (PyVal.str ("s"))
      (PyVal.obj 0) (by decide)).1 rfl,
   ((spider_check_tests_depth (PyVal.str ("u")) (PyVal.int 1) (PyVal.obj 0)
      PyVal.pynone (by decide)).2 rfl).2 rfl⟩

end Minet
